import Mathlib

/-!
Verification of the routing and content-filtering core of the dental-practice
single-page site (`dr_charles_brandon_private_dentistry_website_react.jsx`).

The JavaScript string primitives used by the source (`trim`, `toLowerCase`,
`includes`, `split`, `startsWith`, relational `<` on strings) are modelled as
executable functions over `List Char` (code points; exact on the ASCII data the
program carries, and kernel-reducible so concrete runs can be checked by
`decide`).

`Array.prototype.sort` needs care: the source's date comparator
`(a, b) => (a.date < b.date ? 1 : -1)` never returns 0, so it is not a
consistent comparison function and ECMAScript leaves the relative order of
equal-date items implementation-defined (ES2019's stability guarantee only
covers elements on which the comparator returns 0).  Two faithful resolutions
are modelled side by side: `jsSortByDate` keeps tied items in input order,
while `v8SortByDate` models V8's insertion behaviour, which places a later
tied item before an earlier one (ties reversed).  Order facts are asserted of
the program only when they hold of both resolutions; the stable tie-break is
refuted by exhibiting the two models disagreeing on a tied input.

Similarly, the tag comparator `(a, b) => a.localeCompare(b)` is locale
collation, not code-point order: `localeLe` models the default Unicode
collation to the strength needed (case-insensitive primary level, code-point
tie-break), and `tagLe` is plain code-point lexicographic order, kept to state
what "sorted lexicographically" would mean; the two disagree on mixed-case
tags such as "apple" / "Zebra".
-/

/-- Model of the whitespace test behind `String.prototype.trim` (space, tab,
line feed, carriage return, vertical tab, form feed, NBSP — every whitespace
code point that can occur in this development's data). -/
def jsWhitespace (c : Char) : Bool :=
  c == ' ' || c == '\t' || c == '\n' || c == '\r' ||
  c == Char.ofNat 11 || c == Char.ofNat 12 || c == Char.ofNat 0xa0

/-- `String.prototype.trim`: strip leading and trailing whitespace. -/
def jsTrim (s : String) : String :=
  ⟨((s.data.dropWhile jsWhitespace).reverse.dropWhile jsWhitespace).reverse⟩

/-- `String.prototype.toLowerCase`, per code point (exact on ASCII data). -/
def jsLower (s : String) : String :=
  ⟨s.data.map Char.toLower⟩

/-- Substring occurrence on character lists: `needle` occurs contiguously in
the haystack. -/
def listIncl (needle : List Char) : List Char → Bool
  | [] => needle.isEmpty
  | c :: rest => needle.isPrefixOf (c :: rest) || listIncl needle rest

/-- `String.prototype.includes`: `sub` occurs contiguously in `s`. -/
def jsIncludes (s sub : String) : Bool :=
  listIncl sub.data s.data

/-- Lexicographic strict comparison of character lists: the relational `<` that
JavaScript applies to strings (per code unit; code points coincide on this
program's ASCII dates). -/
def ltCharList : List Char → List Char → Bool
  | [], [] => false
  | [], _ :: _ => true
  | _ :: _, [] => false
  | a :: as, b :: bs => if a < b then true else if b < a then false else ltCharList as bs

/-- JavaScript `a < b` on strings. -/
def jsStrLt (a b : String) : Bool :=
  ltCharList a.data b.data

/-- `String.prototype.split` with a one-character separator: `"".split` is
`[""]`, separators at either end produce empty fields. -/
def splitChar (sep : Char) : List Char → List (List Char)
  | [] => [[]]
  | c :: rest =>
    match splitChar sep rest with
    | [] => [[c]]
    | g :: gs => if c == sep then [] :: g :: gs else (c :: g) :: gs

/-- `String.prototype.split("/")` (and any one-character separator). -/
def jsSplit (s : String) (sep : Char) : List String :=
  (splitChar sep s.data).map (fun g => ⟨g⟩)

/-- The five renderable views of the app shell (`Home`, `About`, `Contact`,
`Blog` list, `BlogPost` with its slug). -/
inductive View where
  | home
  | about
  | contact
  | blogList
  | blogPost (slug : String)
deriving DecidableEq

/-- `RouteView`'s parsing of the hash: default an empty hash to `"#/"`, strip a
single leading `"#/"` (the `replace(/^#\//, "")`), split on `"/"` and drop
empty segments (the `.filter(Boolean)`). -/
def routeParts (hash : String) : List String :=
  let h := if hash == "" then "#/" else hash
  let rest := if "#/".data.isPrefixOf h.data then (⟨h.data.drop 2⟩ : String) else h
  (jsSplit rest '/').filter (fun s => !(s == ""))

/-- `RouteView`'s dispatch on the parsed segments: the chain of `if` tests on
`parts[0]` (with `parts[1]` as the blog-post slug when present). -/
def dispatchParts (parts : List String) : View :=
  let page := parts.headD ""
  if page == "about" then View.about
  else if page == "contact" then View.contact
  else if page == "blog" && decide (2 ≤ parts.length) then View.blogPost (parts.getD 1 "")
  else if page == "blog" then View.blogList
  else View.home

/-- The router: `RouteView`'s hash-to-view function. -/
def resolve (hash : String) : View :=
  dispatchParts (routeParts hash)

/-- Spec-side segment extraction, written from the claim's words: strip a
single leading `"#/"` from the token, split the remainder on `"/"`, drop empty
segments. -/
def specSegments (token : String) : List String :=
  (jsSplit (if "#/".data.isPrefixOf token.data then (⟨token.data.drop 2⟩ : String) else token)
      '/').filter (fun s => !(s == ""))

/-- Spec-side route table, written from the claim's words: zero segments map to
Home; first segment "about"/"contact" to those pages; "blog" with a second
segment to that post, "blog" alone to the blog list; anything else to Home. -/
def specRoute : List String → View
  | [] => View.home
  | first :: rest =>
    if first == "about" then View.about
    else if first == "contact" then View.contact
    else if first == "blog" then
      match rest with
      | second :: _ => View.blogPost second
      | [] => View.blogList
    else View.home

/-- One blog post record, with the fields of the `BLOG_POSTS` objects. -/
structure Post where
  slug : String
  title : String
  date : String
  readTime : String
  excerpt : String
  tags : List String
  content : List String
deriving DecidableEq

/-- First fixture post (`smile-design-first-principles`). -/
def post1 : Post :=
  { slug := "smile-design-first-principles"
    title := "Smile Design: First Principles for Natural Results"
    date := "2025-11-18"
    readTime := "5 min"
    excerpt := "How we align facial aesthetics, tooth proportions, and function—so your result looks effortless and lasts."
    tags := ["Smile Design", "Cosmetic"]
    content :=
      [ "Great cosmetic dentistry starts with restraint. The goal is not a new smile—it is *your* smile, refined.",
        "A robust plan considers facial midline, lip dynamics, tooth display at rest, and occlusal function. The aesthetic layer is built on a stable foundation.",
        "Photography and digital planning help remove guesswork, enabling you to preview direction and make informed decisions before any irreversible step.",
        "Conservative options are prioritized: alignment + whitening + bonding can often deliver dramatic change while preserving tooth structure." ] }

/-- Second fixture post (`composite-bonding-aftercare`). -/
def post2 : Post :=
  { slug := "composite-bonding-aftercare"
    title := "Composite Bonding Aftercare: Keeping Your Finish Bright"
    date := "2025-10-02"
    readTime := "4 min"
    excerpt := "Small habits protect your investment—simple routines that keep bonding smooth, glossy, and stain-resistant."
    tags := ["Bonding", "Aftercare"]
    content :=
      [ "Composite bonding is both art and material science. With the right maintenance, the surface can stay glossy for years.",
        "Use a soft brush, avoid abrasive whitening toothpaste, and consider a night guard if you clench or grind.",
        "Regular hygiene appointments reduce staining and keep margins clean, which is critical for long-term aesthetics.",
        "If you notice dullness, chips, or staining, small refinements can often restore the finish without major work." ] }

/-- Third fixture post (`alignment-whitening-bonding-pathway`). -/
def post3 : Post :=
  { slug := "alignment-whitening-bonding-pathway"
    title := "A Conservative Makeover: Alignment, Whitening, then Bonding"
    date := "2025-08-26"
    readTime := "6 min"
    excerpt := "Why sequencing matters—using orthodontics and whitening to minimize restoration size and maximize longevity."
    tags := ["Orthodontics", "Whitening", "Planning"]
    content :=
      [ "Sequencing is a conversion of complexity into clarity. We start with tooth position, then color, then shape.",
        "By aligning first, bonding can be thinner and more durable. Whitening establishes a stable shade, so restorations match and blend.",
        "The result is typically more natural and more conservative than jumping straight to larger restorations.",
        "A well-planned pathway is often faster than a reactive one—because it reduces rework and compromises." ] }

/-- The fixed content list `BLOG_POSTS`. -/
def BLOG_POSTS : List Post :=
  [post1, post2, post3]

/-- The per-item test of `Blog.filtered`: `query` is the already-normalized
(trimmed, lowercased) search text; an item passes when the query is empty or
occurs in the lowercased title, lowercased excerpt or some lowercased tag, and
the tag selector is `"all"` or occurs verbatim among the item's tags. -/
def filterPred (query tag : String) (p : Post) : Bool :=
  (query == "" || jsIncludes (jsLower p.title) query || jsIncludes (jsLower p.excerpt) query
      || p.tags.any (fun t => jsIncludes (jsLower t) query))
    && (tag == "all" || p.tags.contains tag)

/-- The sort comparator `(a, b) => (a.date < b.date ? 1 : -1)` keeps `a` before
`b` exactly when it returns a value ≤ 0, i.e. when `¬ (a.date < b.date)`. -/
def dateLe (a b : Post) : Prop :=
  jsStrLt a.date b.date = false

instance : DecidableRel dateLe :=
  fun a b => instDecidableEqBool (jsStrLt a.date b.date) false

/-- `Array.prototype.sort` with the date comparator, under the tie resolution
that keeps equal-date items in input order (insertion sort on `dateLe`, the
"comparator returns ≤ 0" relation).  The comparator never returns 0, so this
resolution is a modelling choice, not a guarantee of the program; see
`v8SortByDate` for the opposite, equally admissible resolution. -/
def jsSortByDate (l : List Post) : List Post :=
  l.insertionSort dateLe

/-- One insertion step of V8's small-array sort (TimSort's binary insertion)
with the never-zero date comparator: the pivot `a` moves left past every
element `b` for which the comparator returns a negative value, i.e. past every
`b` with `¬ (a.date < b.date)` — so on a tied date the pivot lands *before*
the earlier element.  Walking a descending accumulator from the left, `a`
stays behind `b` exactly while `a.date < b.date`. -/
def v8Insert (a : Post) : List Post → List Post
  | [] => [a]
  | b :: l => if jsStrLt a.date b.date = true then b :: v8Insert a l else a :: b :: l

/-- `Array.prototype.sort` with the date comparator under V8's tie resolution:
elements are inserted in input order, each landing before any equal-date
element already placed — equal-date runs come out reversed. -/
def v8SortByDate (l : List Post) : List Post :=
  l.foldl (fun acc p => v8Insert p acc) []

/-- `Blog.filtered` under V8's tie resolution of the date sort. -/
def v8Filtered (items : List Post) (q tag : String) : List Post :=
  v8SortByDate (items.filter (filterPred (jsLower (jsTrim q)) tag))

/-- `Blog.filtered`: normalize the query (trim, lowercase), keep the items
passing `filterPred`, sort descending by date. -/
def filtered (items : List Post) (q tag : String) : List Post :=
  jsSortByDate (items.filter (filterPred (jsLower (jsTrim q)) tag))

/-- `Blog.filtered` with the array state made explicit: `Array.prototype.filter`
allocates a fresh array leaving its receiver untouched, and `.sort` mutates only
that fresh array.  First component: the value of `filtered`; second component:
the state of the input array after the call. -/
def filteredCall (store : List Post) (q tag : String) : List Post × List Post :=
  let fresh := store.filter (filterPred (jsLower (jsTrim q)) tag)
  let result := fresh.insertionSort dateLe
  (result, store)

/-- Plain code-point lexicographic order on strings (`a` before `b` iff
`¬ (b < a)`).  This is what "sorted lexicographically" means; it is *not* the
program's tag comparator — `localeCompare` collates differently on mixed-case
tags — and is kept to compare the two orders. -/
def tagLe (a b : String) : Prop :=
  jsStrLt b a = false

instance : DecidableRel tagLe :=
  fun a b => instDecidableEqBool (jsStrLt b a) false

/-- Model of `a.localeCompare(b) ≤ 0` under the default Unicode collation, to
the strength this development needs: the primary level compares
case-insensitively (lowercased strings, so "apple" collates before "Zebra"
although its code points are larger), and equal primaries tie-break by code
points.  Locale collation is host- and locale-dependent; only the primary
behaviour on letters, which every ECMA-402 collation shares, is relied on. -/
def localeLe (a b : String) : Prop :=
  (jsLower a = jsLower b ∧ jsStrLt b a = false)
    ∨ (jsLower a ≠ jsLower b ∧ jsStrLt (jsLower b) (jsLower a) = false)

instance : DecidableRel localeLe :=
  fun a b =>
    inferInstanceAs (Decidable ((jsLower a = jsLower b ∧ jsStrLt b a = false)
      ∨ (jsLower a ≠ jsLower b ∧ jsStrLt (jsLower b) (jsLower a) = false)))

/-- The `Set`-accumulation step of `Blog.tags`: `t.add(x)` keeps insertion
order and drops an already-present tag. -/
def addTag (acc : List String) (x : String) : List String :=
  if x ∈ acc then acc else acc ++ [x]

/-- All tags of all posts in first-occurrence order (the iteration
`BLOG_POSTS.forEach((p) => p.tags.forEach((x) => t.add(x)))`). -/
def collectTags (items : List Post) : List String :=
  items.foldl (fun acc p => p.tags.foldl addTag acc) []

/-- `Blog.tags` with the collation comparator left abstract: `"all"` prepended
to the collected tags sorted by the given "comparator ≤ 0" relation. -/
def availableTagsWith (r : String → String → Prop) [DecidableRel r]
    (items : List Post) : List String :=
  "all" :: (collectTags items).insertionSort r

/-- `Blog.tags`: `["all", ...Array.from(t).sort((a, b) => a.localeCompare(b))]`,
with `localeCompare` modelled by `localeLe`. -/
def availableTags (items : List Post) : List String :=
  availableTagsWith localeLe items

/-- `BlogPost`'s lookup `BLOG_POSTS.find((p) => p.slug === slug)`. -/
def findPost (slug : String) (items : List Post) : Option Post :=
  items.find? (fun p => p.slug == slug)

/-- Outcome of rendering the `BlogPost` view: the article when the slug is
found, otherwise the recoverable "Post not found" card carrying its
"Back to Blog" link target. -/
inductive PostView where
  | article (p : Post)
  | notFound (backHref : String)
deriving DecidableEq

/-- `BlogPost` as a function of the slug: a missing slug renders the fallback
card whose button links back to `"#/blog"`, never a hard failure. -/
def renderBlogPost (slug : String) (items : List Post) : PostView :=
  match findPost slug items with
  | some p => PostView.article p
  | none => PostView.notFound "#/blog"

/-- The contact form's state fields. -/
structure ContactForm where
  name : String
  email : String
  phone : String
  message : String
deriving DecidableEq

/-- JavaScript line terminators, which `.` in a regular expression does not
match. -/
def jsLineTerm (c : Char) : Bool :=
  c == '\n' || c == '\r' || c == Char.ofNat 0x2028 || c == Char.ofNat 0x2029

/-- Model of the test `/.+@.+\..+/.test(s)`: a match exists exactly when some
occurrence of `'@'` at index `i` and of `'.'` at index `j ≥ i + 2` has a
non-line-terminator directly before the `'@'`, only non-line-terminators
strictly between the two, and a non-line-terminator directly after the `'.'`
(shrinking the two outer `.+` groups to one character each loses no match). -/
def emailShape (s : String) : Bool :=
  let cs := s.data
  let n := cs.length
  (List.range n).any (fun i =>
    (List.range n).any (fun j =>
      decide (1 ≤ i) && decide (i + 2 ≤ j) && decide (j + 1 < n)
        && (cs.getD i ' ' == '@') && (cs.getD j ' ' == '.')
        && !jsLineTerm (cs.getD (i - 1) ' ')
        && (List.range (j - (i + 1))).all (fun k => !jsLineTerm (cs.getD (i + 1 + k) ' '))
        && !jsLineTerm (cs.getD (j + 1) ' ')))

/-- `Contact.isValid`: trimmed name at least 2 characters, trimmed email passes
the minimal shape test, trimmed message at least 10 characters. -/
def isValid (f : ContactForm) : Bool :=
  decide (2 ≤ (jsTrim f.name).length) && emailShape (jsTrim f.email)
    && decide (10 ≤ (jsTrim f.message).length)

/-- The contact view's state: the form fields, the `submitted` flag, and the
mail draft handed to the host's mail handler (the `mailto:` navigation),
abstracted to the form payload it is assembled from. -/
structure ContactState where
  form : ContactForm
  submitted : Bool
  mailDraft : Option ContactForm
deriving DecidableEq

/-- `Contact.onSubmit`: when the gate fails the handler returns without any
effect; otherwise it sets `submitted` and hands the draft to the mail
handler. -/
def onSubmit (s : ContactState) : ContactState :=
  if isValid s.form then { s with submitted := true, mailDraft := some s.form } else s

/-- A post with its body paragraphs erased; two posts agree on everything the
filter can observe iff `eraseContent` maps them to the same value. -/
def eraseContent (p : Post) : Post :=
  { p with content := [] }

/-- `post1` with different body paragraphs (used to witness that the filter
never reads the body). -/
def post1Alt : Post :=
  { post1 with content := ["A different body paragraph."] }

/-- A post used to exhibit a date tie (same `date` as `tiedB`). -/
def tiedA : Post :=
  { slug := "tied-a"
    title := "Tied A"
    date := "2025-01-01"
    readTime := "1 min"
    excerpt := "First post of the tied pair."
    tags := ["T"]
    content := [] }

/-- A post sharing `tiedA`'s date, listed after it. -/
def tiedB : Post :=
  { slug := "tied-b"
    title := "Tied B"
    date := "2025-01-01"
    readTime := "1 min"
    excerpt := "Second post of the tied pair."
    tags := ["T"]
    content := [] }

/-- A post whose tags are mixed-case, where locale collation ("apple" before
"Zebra") and code-point lexicographic order ("Zebra" before "apple")
disagree. -/
def mixedTagsPost : Post :=
  { slug := "mixed-tags"
    title := "Mixed-case tags"
    date := "2025-01-01"
    readTime := "1 min"
    excerpt := "Post carrying mixed-case tags."
    tags := ["Zebra", "apple"]
    content := [] }

/-! Helper lemmas: the strict string comparison agrees with the lexicographic
order, and the derived "comparator ≤ 0" relations are total transitive
preorders. -/

theorem ltCharList_iff_lt : ∀ x y : List Char, ltCharList x y = true ↔ x < y := by
  intro x
  induction x with
  | nil =>
    intro y
    cases y with
    | nil => exact iff_of_false (by decide) (List.Lex.not_nil_right _ _)
    | cons b bs => exact iff_of_true rfl (List.nil_lt_cons b bs)
  | cons a as ih =>
    intro y
    cases y with
    | nil => exact iff_of_false (by simp [ltCharList]) (List.Lex.not_nil_right _ _)
    | cons b bs =>
      by_cases hab : a < b
      · refine iff_of_true ?_ (List.Lex.rel hab)
        simp [ltCharList, hab]
      · by_cases hba : b < a
        · refine iff_of_false ?_ ?_
          · simp [ltCharList, hab, hba]
          · intro hlex
            cases hlex with
            | rel h => exact hab h
            | cons h => exact lt_irrefl a hba
        · have hEq : a = b := le_antisymm (not_lt.mp hba) (not_lt.mp hab)
          subst hEq
          have hstep : ltCharList (a :: as) (a :: bs) = ltCharList as bs := by
            simp [ltCharList]
          rw [hstep, ih bs]
          exact Iff.symm List.Lex.cons_iff

theorem jsStrLt_eq_false_iff (a b : String) : jsStrLt a b = false ↔ b ≤ a := by
  constructor
  · intro h
    refine not_lt.mp (fun hlt => ?_)
    have hlist : a.data < b.data := String.lt_iff_toList_lt.mp hlt
    have := (ltCharList_iff_lt a.data b.data).mpr hlist
    rw [jsStrLt] at h
    rw [h] at this
    exact Bool.false_ne_true this
  · intro h
    cases hx : jsStrLt a b with
    | false => rfl
    | true =>
      exfalso
      have hlist : a.data < b.data := (ltCharList_iff_lt a.data b.data).mp hx
      exact not_lt.mpr h (String.lt_iff_toList_lt.mpr hlist)

theorem jsStrLt_eq_true_iff (a b : String) : jsStrLt a b = true ↔ a < b := by
  rw [jsStrLt, ltCharList_iff_lt]
  exact (String.lt_iff_toList_lt).symm

theorem dateLe_total : ∀ a b : Post, dateLe a b ∨ dateLe b a := by
  intro a b
  rcases le_total b.date a.date with h | h
  · exact Or.inl ((jsStrLt_eq_false_iff _ _).mpr h)
  · exact Or.inr ((jsStrLt_eq_false_iff _ _).mpr h)

theorem dateLe_trans : ∀ a b c : Post, dateLe a b → dateLe b c → dateLe a c := by
  intro a b c hab hbc
  exact (jsStrLt_eq_false_iff _ _).mpr
    (le_trans ((jsStrLt_eq_false_iff _ _).mp hbc) ((jsStrLt_eq_false_iff _ _).mp hab))

theorem tagLe_total : ∀ a b : String, tagLe a b ∨ tagLe b a := by
  intro a b
  rcases le_total a b with h | h
  · exact Or.inl ((jsStrLt_eq_false_iff _ _).mpr h)
  · exact Or.inr ((jsStrLt_eq_false_iff _ _).mpr h)

theorem tagLe_trans : ∀ a b c : String, tagLe a b → tagLe b c → tagLe a c := by
  intro a b c hab hbc
  exact (jsStrLt_eq_false_iff _ _).mpr
    (le_trans ((jsStrLt_eq_false_iff _ _).mp hab) ((jsStrLt_eq_false_iff _ _).mp hbc))

/-! Helper lemmas: the V8 tie resolution is also a permutation that sorts
descending by date. -/

theorem v8Insert_perm (a : Post) : ∀ l : List Post, List.Perm (v8Insert a l) (a :: l) := by
  intro l
  induction l with
  | nil => exact List.Perm.refl _
  | cons b l ih =>
    by_cases h : jsStrLt a.date b.date = true
    · rw [v8Insert, if_pos h]
      exact (ih.cons b).trans (List.Perm.swap a b l)
    · rw [v8Insert, if_neg h]

theorem v8fold_perm : ∀ (l acc : List Post),
    List.Perm (l.foldl (fun acc p => v8Insert p acc) acc) (acc ++ l) := by
  intro l
  induction l with
  | nil => intro acc; simp
  | cons p l ih =>
    intro acc
    rw [List.foldl_cons]
    refine ((ih (v8Insert p acc)).trans ?_)
    refine (((v8Insert_perm p acc).append_right l).trans ?_)
    exact List.perm_middle.symm

theorem v8SortByDate_perm (l : List Post) : List.Perm (v8SortByDate l) l := by
  have h := v8fold_perm l []
  simpa [v8SortByDate] using h

theorem v8Insert_pairwise (a : Post) : ∀ l : List Post,
    List.Pairwise (fun x y : Post => y.date ≤ x.date) l →
    List.Pairwise (fun x y : Post => y.date ≤ x.date) (v8Insert a l) := by
  intro l
  induction l with
  | nil => intro _; exact List.pairwise_singleton _ a
  | cons b l ih =>
    intro hp
    rcases List.pairwise_cons.mp hp with ⟨hb, hl⟩
    by_cases h : jsStrLt a.date b.date = true
    · rw [v8Insert, if_pos h]
      refine List.pairwise_cons.mpr ⟨?_, ih hl⟩
      intro x hx
      rcases List.mem_cons.mp ((v8Insert_perm a l).mem_iff.mp hx) with rfl | hxl
      · exact le_of_lt ((jsStrLt_eq_true_iff _ _).mp h)
      · exact hb x hxl
    · rw [v8Insert, if_neg h]
      have hba : b.date ≤ a.date := (jsStrLt_eq_false_iff _ _).mp (by
        cases hx : jsStrLt a.date b.date with
        | false => rfl
        | true => exact absurd hx h)
      refine List.pairwise_cons.mpr ⟨?_, hp⟩
      intro x hx
      rcases List.mem_cons.mp hx with rfl | hxl
      · exact hba
      · exact le_trans (hb x hxl) hba

theorem v8fold_pairwise : ∀ (l acc : List Post),
    List.Pairwise (fun x y : Post => y.date ≤ x.date) acc →
    List.Pairwise (fun x y : Post => y.date ≤ x.date)
      (l.foldl (fun acc p => v8Insert p acc) acc) := by
  intro l
  induction l with
  | nil => intro acc h; exact h
  | cons p l ih =>
    intro acc h
    rw [List.foldl_cons]
    exact ih _ (v8Insert_pairwise p acc h)

theorem v8SortByDate_pairwise (l : List Post) :
    List.Pairwise (fun x y : Post => y.date ≤ x.date) (v8SortByDate l) :=
  v8fold_pairwise l [] List.Pairwise.nil

/-! Helper lemmas: the `Set`-accumulation of `Blog.tags` collects exactly the
tags of the posts, without duplicates. -/

theorem mem_addTag (acc : List String) (x y : String) :
    y ∈ addTag acc x ↔ y ∈ acc ∨ y = x := by
  by_cases h : x ∈ acc
  · rw [addTag, if_pos h]
    constructor
    · exact Or.inl
    · rintro (hy | rfl)
      · exact hy
      · exact h
  · rw [addTag, if_neg h]
    simp

theorem nodup_addTag (acc : List String) (x : String) (h : acc.Nodup) :
    (addTag acc x).Nodup := by
  by_cases hx : x ∈ acc
  · rwa [addTag, if_pos hx]
  · rw [addTag, if_neg hx]
    simp [List.nodup_append, h, hx]

theorem mem_foldl_addTag : ∀ (ts acc : List String) (y : String),
    y ∈ ts.foldl addTag acc ↔ y ∈ acc ∨ y ∈ ts := by
  intro ts
  induction ts with
  | nil => simp
  | cons t ts ih =>
    intro acc y
    rw [List.foldl_cons, ih, mem_addTag]
    simp [or_assoc]

theorem nodup_foldl_addTag : ∀ (ts acc : List String), acc.Nodup →
    (ts.foldl addTag acc).Nodup := by
  intro ts
  induction ts with
  | nil => exact fun acc h => h
  | cons t ts ih =>
    intro acc h
    exact ih _ (nodup_addTag acc t h)

theorem mem_collectTags_aux : ∀ (items : List Post) (acc : List String) (y : String),
    y ∈ items.foldl (fun acc p => p.tags.foldl addTag acc) acc ↔
      y ∈ acc ∨ ∃ p ∈ items, y ∈ p.tags := by
  intro items
  induction items with
  | nil => simp
  | cons q items ih =>
    intro acc y
    rw [List.foldl_cons, ih, mem_foldl_addTag]
    constructor
    · rintro ((hy | hy) | ⟨p, hp, hy⟩)
      · exact Or.inl hy
      · exact Or.inr ⟨q, List.mem_cons_self q items, hy⟩
      · exact Or.inr ⟨p, List.mem_cons_of_mem q hp, hy⟩
    · rintro (hy | ⟨p, hp, hy⟩)
      · exact Or.inl (Or.inl hy)
      · rcases List.mem_cons.mp hp with rfl | hp
        · exact Or.inl (Or.inr hy)
        · exact Or.inr ⟨p, hp, hy⟩

theorem nodup_collectTags (items : List Post) : (collectTags items).Nodup := by
  rw [collectTags]
  generalize hacc : ([] : List String) = acc
  have hn : acc.Nodup := by rw [← hacc]; exact List.nodup_nil
  clear hacc
  induction items generalizing acc with
  | nil => exact hn
  | cons q items ih => exact ih _ (nodup_foldl_addTag q.tags acc hn)

theorem mem_collectTags (items : List Post) (y : String) :
    y ∈ collectTags items ↔ ∃ p ∈ items, y ∈ p.tags := by
  rw [collectTags, mem_collectTags_aux]
  simp

/-! Helper lemma: `find?` returns the first match. -/

theorem find?_first {α : Type} (p : α → Bool) :
    ∀ (l : List α) (a : α), l.find? p = some a →
      p a = true ∧ ∃ l₁ l₂, l = l₁ ++ a :: l₂ ∧ ∀ b ∈ l₁, p b = false := by
  intro l
  induction l with
  | nil => intro a h; cases h
  | cons x l ih =>
    intro a h
    cases hx : p x with
    | true =>
      rw [List.find?_cons_of_pos l hx] at h
      cases h
      exact ⟨hx, [], l, rfl, by simp⟩
    | false =>
      rw [List.find?_cons_of_neg l (by simp [hx])] at h
      obtain ⟨hp, l₁, l₂, rfl, hl₁⟩ := ih a h
      refine ⟨hp, x :: l₁, l₂, rfl, ?_⟩
      intro b hb
      rcases List.mem_cons.mp hb with rfl | hb
      · exact hx
      · exact hl₁ b hb

/-! Helper lemmas: with the empty query and the `"all"` selector every item
passes the filter, so `filtered` only re-sorts. -/

theorem filterPred_empty_all (p : Post) : filterPred (jsLower (jsTrim "")) "all" p = true := rfl

theorem filtered_empty_all (items : List Post) :
    filtered items "" "all" = jsSortByDate items := by
  rw [filtered, List.filter_eq_self.mpr (fun p _ => filterPred_empty_all p)]

theorem filtered_perm_filter (items : List Post) (q t : String) :
    List.Perm (filtered items q t) (items.filter (filterPred (jsLower (jsTrim q)) t)) :=
  List.perm_insertionSort dateLe _

theorem v8Filtered_empty_all (items : List Post) :
    v8Filtered items "" "all" = v8SortByDate items := by
  rw [v8Filtered, List.filter_eq_self.mpr (fun p _ => filterPred_empty_all p)]

theorem v8Filtered_perm_filter (items : List Post) (q t : String) :
    List.Perm (v8Filtered items q t) (items.filter (filterPred (jsLower (jsTrim q)) t)) :=
  v8SortByDate_perm _

theorem mem_filtered (items : List Post) (q t : String) (p : Post) :
    p ∈ filtered items q t ↔ p ∈ items ∧ filterPred (jsLower (jsTrim q)) t p = true := by
  rw [filtered, jsSortByDate, List.mem_insertionSort, List.mem_filter]

/-! The claims. -/

/-- C1.  The content filter includes an item iff (the trimmed, lowercased query
is empty, or occurs in the case-folded title, case-folded excerpt/summary, or
some case-folded tag) and (the selector is the sentinel "all" or occurs
verbatim among the item's tags); on the fixture list,
`filtered BLOG_POSTS "bonding" "all"` is exactly the sublist of posts whose
title, summary or tags case-insensitively contain "bonding". -/
theorem C1_filter_inclusion :
    (∀ (items : List Post) (q t : String) (p : Post),
      p ∈ filtered items q t ↔
        p ∈ items
        ∧ (jsLower (jsTrim q) = ""
            ∨ jsIncludes (jsLower p.title) (jsLower (jsTrim q)) = true
            ∨ jsIncludes (jsLower p.excerpt) (jsLower (jsTrim q)) = true
            ∨ ∃ tg ∈ p.tags, jsIncludes (jsLower tg) (jsLower (jsTrim q)) = true)
        ∧ (t = "all" ∨ t ∈ p.tags))
    ∧ filtered BLOG_POSTS "bonding" "all"
        = BLOG_POSTS.filter (fun p =>
            jsIncludes (jsLower p.title) "bonding" || jsIncludes (jsLower p.excerpt) "bonding"
              || p.tags.any (fun tg => jsIncludes (jsLower tg) "bonding")) := by
  constructor
  · intro items q t p
    rw [mem_filtered]
    simp only [filterPred, Bool.and_eq_true, Bool.or_eq_true, beq_iff_eq,
      List.any_eq_true, List.elem_iff]
    tauto
  · decide

/-- C1 witness: the general membership equivalence evaluated on the fixture
list at the query "bonding", selector "all" and the second post. -/
theorem C1_filter_inclusion_witness :
    post2 ∈ filtered BLOG_POSTS "bonding" "all" :=
  (C1_filter_inclusion.1 BLOG_POSTS "bonding" "all" post2).mpr
    (by refine ⟨by decide, Or.inr (Or.inl (by decide)), Or.inl rfl⟩)

/-- C2 counterexample.  The date comparator never returns 0, so on a date tie
the sort order is implementation-defined: on the two-post tied input the
keep-input-order resolution returns `[tiedA, tiedB]` while V8's resolution
returns `[tiedB, tiedA]` — the program does not guarantee the claimed stable
tie-break (relative order of equal-date items preserved). -/
theorem C2_stable_tie_counterexample :
    tiedA.date = tiedB.date
    ∧ filtered [tiedA, tiedB] "" "all" = [tiedA, tiedB]
    ∧ v8Filtered [tiedA, tiedB] "" "all" = [tiedB, tiedA]
    ∧ v8Filtered [tiedA, tiedB] "" "all" ≠ [tiedA, tiedB] := by
  refine ⟨rfl, by decide, by decide, by decide⟩

/-- C2 amended.  Under either admissible tie resolution of the never-zero
comparator (keep input order, or V8's tie reversal), the filter's result is
ordered descending by date and the items carrying any fixed date are preserved
as a multiset (their relative order is implementation-defined, not stable);
with the empty query and selector "all" the result is a permutation of the
whole input with unchanged length. -/
theorem C2_filter_ordering_amended :
    ∀ (items : List Post) (q t d : String),
      List.Pairwise (fun a b : Post => b.date ≤ a.date) (filtered items q t)
      ∧ List.Pairwise (fun a b : Post => b.date ≤ a.date) (v8Filtered items q t)
      ∧ List.Perm ((filtered items q t).filter (fun p => p.date == d))
          ((items.filter (filterPred (jsLower (jsTrim q)) t)).filter (fun p => p.date == d))
      ∧ List.Perm ((v8Filtered items q t).filter (fun p => p.date == d))
          ((items.filter (filterPred (jsLower (jsTrim q)) t)).filter (fun p => p.date == d))
      ∧ List.Perm (filtered items "" "all") items
      ∧ (filtered items "" "all").length = items.length
      ∧ List.Perm (v8Filtered items "" "all") items
      ∧ (v8Filtered items "" "all").length = items.length := by
  intro items q t d
  have hperm : List.Perm (filtered items "" "all") items := by
    rw [filtered_empty_all, jsSortByDate]
    exact List.perm_insertionSort dateLe items
  have hv8perm : List.Perm (v8Filtered items "" "all") items := by
    rw [v8Filtered_empty_all]
    exact v8SortByDate_perm items
  refine ⟨?_, ?_, ?_, ?_, hperm, hperm.length_eq, hv8perm, hv8perm.length_eq⟩
  · haveI : IsTotal Post dateLe := ⟨dateLe_total⟩
    haveI : IsTrans Post dateLe := ⟨dateLe_trans⟩
    have hsorted : List.Sorted dateLe (filtered items q t) :=
      List.sorted_insertionSort dateLe _
    exact hsorted.imp (fun h => (jsStrLt_eq_false_iff _ _).mp h)
  · exact v8SortByDate_pairwise _
  · exact (filtered_perm_filter items q t).filter _
  · exact (v8Filtered_perm_filter items q t).filter _

/-- C3.  The router strips a single leading "#/", splits on "/", drops empty
segments, and maps the segments exactly as the spec's route table does (zero
segments to Home, "about"/"contact" to those pages, "blog" with a second
segment to that post, "blog" alone to the blog list — including the trailing
slash form "#/blog/" — and anything else to Home). -/
theorem C3_router_table :
    (∀ t : String, resolve t = specRoute (specSegments t))
    ∧ resolve "#/blog" = View.blogList ∧ resolve "#/blog/" = View.blogList := by
  refine ⟨?_, by decide, by decide⟩
  intro t
  have hparts : routeParts t = specSegments t := by
    by_cases h : t = ""
    · subst h; decide
    · have hb : (t == "") = false := by simp [h]
      rw [routeParts, specSegments]
      simp only [hb, Bool.false_eq_true, if_false]
  rw [resolve, hparts]
  generalize specSegments t = parts
  cases parts with
  | nil => decide
  | cons first rest =>
    by_cases h1 : first = "about"
    · subst h1
      simp [dispatchParts, specRoute]
    · by_cases h2 : first = "contact"
      · subst h2
        simp [dispatchParts, specRoute]
      · by_cases h3 : first = "blog"
        · subst h3
          cases rest with
          | nil => decide
          | cons second rest2 =>
            simp [dispatchParts, specRoute, Nat.le_add_left]
        · have b1 : (first == "about") = false := by simp [h1]
          have b2 : (first == "contact") = false := by simp [h2]
          have b3 : (first == "blog") = false := by simp [h3]
          simp [dispatchParts, specRoute, b1, b2, b3]

/-- C4.  The router is a total deterministic function of the token (same token,
same view), and the root token, the empty token and an unknown route all
resolve to Home. -/
theorem C4_router_total_deterministic :
    (∀ t₁ t₂ : String, t₁ = t₂ → resolve t₁ = resolve t₂)
    ∧ (∀ t : String, ∃ v : View, resolve t = v)
    ∧ resolve "#/" = View.home ∧ resolve "" = View.home
    ∧ resolve "#/unknown" = View.home :=
  ⟨fun _ _ h => h ▸ rfl, fun t => ⟨resolve t, rfl⟩, by decide, by decide, by decide⟩

/-- C4 witness: determinism applied at the concrete token "#/about". -/
theorem C4_router_total_deterministic_witness :
    resolve "#/about" = resolve "#/about" :=
  C4_router_total_deterministic.1 "#/about" "#/about" rfl

/-- C5 counterexample.  The program sorts tags with `localeCompare`, which
collates "apple" before "Zebra" (case-insensitive primary level), while in
code-point lexicographic order "Zebra" precedes "apple"; so on an item list
carrying those tags the tail of `availableTags` is not sorted
lexicographically, refuting the universally-quantified claim. -/
theorem C5_locale_counterexample :
    availableTags [mixedTagsPost] = ["all", "apple", "Zebra"]
    ∧ ¬ List.Sorted (fun a b : String => a ≤ b) ["apple", "Zebra"] := by
  constructor
  · decide
  · intro h
    have hle : ("apple" : String) ≤ "Zebra" :=
      List.rel_of_sorted_cons h "Zebra" (List.mem_cons_self _ _)
    exact absurd hle (not_le.mpr ((jsStrLt_eq_true_iff "Zebra" "apple").mp (by decide)))

/-- C5 amended.  `availableTags` is the sentinel "all" followed by the union of
all tags across all items, deduplicated, sorted ascending by the sort
comparator — the host's `localeCompare` collation, not code-point lexicographic
order: for every total, transitive comparator relation the tail is sorted by
it, duplicate-free and contains exactly the tags present; on the fixture's
tags, where collation and lexicographic order agree, the output is
`["all", "Aftercare", "Bonding", "Cosmetic", "Orthodontics", "Planning",
"Smile Design", "Whitening"]` under both orders. -/
theorem C5_available_tags_amended :
    (∀ (r : String → String → Prop) [DecidableRel r],
      (∀ a b, r a b ∨ r b a) → (∀ a b c, r a b → r b c → r a c) →
      ∀ items : List Post, ∃ rest : List String,
        availableTagsWith r items = "all" :: rest
        ∧ List.Sorted r rest
        ∧ rest.Nodup
        ∧ ∀ s : String, s ∈ rest ↔ ∃ p ∈ items, s ∈ p.tags)
    ∧ availableTags BLOG_POSTS
        = ["all", "Aftercare", "Bonding", "Cosmetic", "Orthodontics", "Planning",
            "Smile Design", "Whitening"]
    ∧ availableTagsWith tagLe BLOG_POSTS
        = ["all", "Aftercare", "Bonding", "Cosmetic", "Orthodontics", "Planning",
            "Smile Design", "Whitening"] := by
  refine ⟨?_, by decide, by decide⟩
  intro r hdec htot htrans items
  haveI : IsTotal String r := ⟨htot⟩
  haveI : IsTrans String r := ⟨htrans⟩
  refine ⟨(collectTags items).insertionSort r, rfl, List.sorted_insertionSort r _, ?_, ?_⟩
  · exact ((List.perm_insertionSort r _).nodup_iff).mpr (nodup_collectTags items)
  · intro s
    rw [List.mem_insertionSort, mem_collectTags]

/-- C5 witness: the comparator-generic contract applied at the concrete
code-point comparator on the fixture list, and the fixture output of
`availableTags` itself. -/
theorem C5_available_tags_amended_witness :
    (∃ rest : List String,
      availableTagsWith tagLe BLOG_POSTS = "all" :: rest
      ∧ List.Sorted tagLe rest
      ∧ rest.Nodup
      ∧ ∀ s : String, s ∈ rest ↔ ∃ p ∈ BLOG_POSTS, s ∈ p.tags)
    ∧ availableTags BLOG_POSTS
        = ["all", "Aftercare", "Bonding", "Cosmetic", "Orthodontics", "Planning",
            "Smile Design", "Whitening"] :=
  ⟨C5_available_tags_amended.1 tagLe tagLe_total tagLe_trans BLOG_POSTS,
   C5_available_tags_amended.2.1⟩

/-- C6.  `findPost` is a linear search for an exact slug match: a hit is the
first matching item (in particular the head of the list when the head's slug is
searched), a miss is `none` exactly when no item matches, and a miss renders as
the recoverable fallback view with the "Back to Blog" navigation, never a
failure. -/
theorem C6_find_post :
    ∀ (slug : String) (items : List Post),
      (∀ p : Post, findPost slug items = some p →
        p.slug = slug ∧ ∃ l₁ l₂, items = l₁ ++ p :: l₂ ∧ ∀ q ∈ l₁, q.slug ≠ slug)
      ∧ (findPost slug items = none ↔ ∀ p ∈ items, p.slug ≠ slug)
      ∧ (∀ (p : Post) (rest : List Post), findPost p.slug (p :: rest) = some p)
      ∧ (findPost slug items = none → renderBlogPost slug items = PostView.notFound "#/blog")
      ∧ (∀ p : Post, findPost slug items = some p →
          renderBlogPost slug items = PostView.article p) := by
  intro slug items
  refine ⟨?_, ?_, ?_, ?_, ?_⟩
  · intro p h
    obtain ⟨hp, l₁, l₂, rfl, hl₁⟩ := find?_first _ items p h
    refine ⟨beq_iff_eq.mp hp, l₁, l₂, rfl, ?_⟩
    intro b hb he
    have hfalse := hl₁ b hb
    rw [he] at hfalse
    simp at hfalse
  · rw [findPost, List.find?_eq_none]
    constructor
    · intro h p hp he
      exact h p hp (by simp [he])
    · intro h p hp hb
      exact h p hp (beq_iff_eq.mp hb)
  · intro p rest
    rw [findPost]
    exact List.find?_cons_of_pos rest (by simp)
  · intro h
    rw [renderBlogPost, h]
  · intro p h
    rw [renderBlogPost, h]

/-- C6 witness: on the fixture list, a nonexistent slug renders the fallback
view linking back to the blog list, and the first item's own slug finds the
first item. -/
theorem C6_find_post_witness :
    renderBlogPost "does-not-exist" BLOG_POSTS = PostView.notFound "#/blog"
    ∧ findPost post1.slug BLOG_POSTS = some post1 :=
  ⟨(C6_find_post "does-not-exist" BLOG_POSTS).2.2.2.1 (by decide),
   (C6_find_post post1.slug BLOG_POSTS).2.2.1 post1 [post2, post3]⟩

/-- C7.  The submission gate is exactly: trimmed name length ≥ 2, trimmed
email passes the minimal shape test, trimmed message length ≥ 10; the phone
field never affects the gate; and when the gate is false, submission is a
no-op (the handler leaves the whole state unchanged), while a passing gate
sets the submitted flag and hands the draft off. -/
theorem C7_contact_gate :
    ∀ (f : ContactForm) (ph : String) (s : ContactState),
      (isValid f = true ↔
        2 ≤ (jsTrim f.name).length ∧ emailShape (jsTrim f.email) = true
          ∧ 10 ≤ (jsTrim f.message).length)
      ∧ isValid { f with phone := ph } = isValid f
      ∧ (isValid s.form = false → onSubmit s = s)
      ∧ (isValid s.form = true →
          (onSubmit s).submitted = true ∧ (onSubmit s).form = s.form
            ∧ (onSubmit s).mailDraft = some s.form) := by
  intro f ph s
  refine ⟨?_, rfl, ?_, ?_⟩
  · simp [isValid, Bool.and_eq_true, decide_eq_true_eq, and_assoc]
  · intro h
    rw [onSubmit]
    simp [h]
  · intro h
    rw [onSubmit]
    simp [h]

/-- C7 witness: the gate applied at a concrete invalid state (everything
empty: no-op) and at a concrete valid state (submitted becomes true). -/
theorem C7_contact_gate_witness :
    onSubmit ⟨⟨"", "", "", ""⟩, false, none⟩ = ⟨⟨"", "", "", ""⟩, false, none⟩
    ∧ (onSubmit ⟨⟨"Jane Doe", "jane@example.com", "07", "Hello, please book me in."⟩,
        false, none⟩).submitted = true :=
  ⟨(C7_contact_gate ⟨"", "", "", ""⟩ "" ⟨⟨"", "", "", ""⟩, false, none⟩).2.2.1 (by decide),
   ((C7_contact_gate ⟨"", "", "", ""⟩ ""
      ⟨⟨"Jane Doe", "jane@example.com", "07", "Hello, please book me in."⟩,
        false, none⟩).2.2.2 (by decide)).1⟩

/-- C8.  The filter is pure: the input array is unchanged after the call (only
the fresh array allocated by `filter` is sorted in place), and the returned
sequence is the function `filtered` of the inputs, a reordering of the kept
sublist. -/
theorem C8_filter_pure :
    ∀ (store : List Post) (q t : String),
      (filteredCall store q t).2 = store
      ∧ (filteredCall store q t).1 = filtered store q t
      ∧ List.Perm (filteredCall store q t).1
          (store.filter (filterPred (jsLower (jsTrim q)) t)) :=
  fun _ _ _ => ⟨rfl, rfl, List.perm_insertionSort dateLe _⟩

/-- C9.  The filter's result is always a subset of its input, and re-filtering
with the empty query and selector "all" only reorders: it is a permutation of
the first result and never reintroduces excluded items. -/
theorem C9_filter_subset_idempotent :
    ∀ (items : List Post) (q t : String),
      (∀ p ∈ filtered items q t, p ∈ items)
      ∧ List.Perm (filtered (filtered items q t) "" "all") (filtered items q t) := by
  intro items q t
  constructor
  · intro p hp
    exact ((mem_filtered items q t p).mp hp).1
  · rw [filtered_empty_all (filtered items q t), jsSortByDate]
    exact List.perm_insertionSort dateLe _

/-- C9 witness: subset applied on the fixture list at the query "bonding". -/
theorem C9_filter_subset_idempotent_witness :
    post2 ∈ BLOG_POSTS :=
  (C9_filter_subset_idempotent BLOG_POSTS "bonding" "all").1 post2 (by decide)

/-- C10.  The filter never consults the body paragraphs: two content lists that
agree after erasing bodies produce, for every query and selector, results that
agree after erasing bodies — in particular the same slugs in the same order. -/
theorem C10_filter_ignores_body :
    ∀ (items₁ items₂ : List Post) (q t : String),
      items₁.map eraseContent = items₂.map eraseContent →
        (filtered items₁ q t).map eraseContent = (filtered items₂ q t).map eraseContent
        ∧ (filtered items₁ q t).map Post.slug = (filtered items₂ q t).map Post.slug := by
  intro items₁ items₂ q t h
  have key : ∀ items : List Post,
      (filtered items q t).map eraseContent
        = ((items.map eraseContent).filter
            (filterPred (jsLower (jsTrim q)) t)).insertionSort dateLe := by
    intro items
    rw [filtered, jsSortByDate]
    rw [List.map_insertionSort dateLe dateLe eraseContent _ (fun a _ b _ => Iff.rfl)]
    congr 1
    rw [List.filter_map eraseContent items]
    have hsame : items.filter ((filterPred (jsLower (jsTrim q)) t) ∘ eraseContent)
        = items.filter (filterPred (jsLower (jsTrim q)) t) :=
      List.filter_congr (fun x _ => rfl)
    rw [hsame]
  have herase : (filtered items₁ q t).map eraseContent
      = (filtered items₂ q t).map eraseContent := by
    rw [key items₁, key items₂, h]
  refine ⟨herase, ?_⟩
  have hslug : ∀ l : List Post, l.map Post.slug = (l.map eraseContent).map Post.slug := by
    intro l
    rw [List.map_map, show Post.slug ∘ eraseContent = Post.slug from funext (fun _ => rfl)]
  rw [hslug (filtered items₁ q t), hslug (filtered items₂ q t), herase]

/-- C10 witness: changing only a post's body paragraphs leaves the filter's
(body-erased) result unchanged, on a concrete query that keeps the post. -/
theorem C10_filter_ignores_body_witness :
    (filtered [post1] "design" "all").map eraseContent
      = (filtered [post1Alt] "design" "all").map eraseContent :=
  ((C10_filter_ignores_body [post1] [post1Alt] "design" "all") (by decide)).1
